import Mathlib

/-!
Shallow embedding of the concurrent batch-operation engine of this
repository (source: `src/app/your_code.py` and `src/main.py`): the
voting-style outcome classifier (`vote_do` + the mapping performed by
`batch_vote.process_task`), the ordered reassembler
(`batch_vote.flush_output` over `output_buffer` guarded by
`output_lock`), the aggregate counters, the listing-style page
classifier and crawl loop (`get_user_posts`,
`crawl_user_posts_gui`), the read-through dedup cache
(`UsernamePostSearcher.get_user_full_info_cached`), and the batch
configuration handling (`batch_vote`, `batch_vote_gui`,
`MainScreen._do_batch_vote`).

Machine integers are modelled as `Int`/`Nat`; strings as `List Char`;
fallible remote calls as explicit response values including an
exception constructor; thread interleavings as explicit schedules of
atomic lock-protected sections.
-/

/-- The three terminal outcomes a task can reach, mirroring the
`result_type` strings `"success" | "already" | "failed"` used by
`batch_vote.process_task` and `flush_output`. -/
inductive ResultType where
  | success
  | already
  | failed
deriving DecidableEq

/-- A raw response from the vote endpoint, as seen by `vote_do`:
either an HTTP response carrying the transport status, the parsed
JSON `code` field (absent key modelled as `none`) and the `msg`
string, or a raised request exception (the `except` branch of
`vote_do`). -/
inductive VoteResponse where
  | ok (status : Nat) (code : Option Int) (msg : List Char)
  | exc
deriving DecidableEq

/-- Substring test, mirroring Python's `needle in hay` on strings
(used by `vote_do` as `"已投" in msg` etc.). -/
def strContains (needle : List Char) : List Char → Bool
  | [] => needle.isEmpty
  | c :: t => needle.isPrefixOf (c :: t) || strContains needle t

/-- The fixed set of "already performed" markers tested by `vote_do`
on the `msg` field: `"已投"`, `"重复"`, `"投过"`. -/
def markerHit (msg : List Char) : Bool :=
  strContains ['已', '投'] msg || strContains ['重', '复'] msg ||
    strContains ['投', '过'] msg

/-- The voting-style classifier: the composition of `vote_do`'s
branching (status 200 → parse; `code == 1` → success flag with
`code = 1`; `code == 0` and an already-marker in `msg` → success flag
with `code = 0`; otherwise failure; non-200 or exception → failure)
with `batch_vote.process_task`'s mapping (success flag with
`vote_code == 1` → `"success"`, success flag otherwise → `"already"`,
no success flag → `"failed"`). -/
def vote_do_classify : VoteResponse → ResultType
  | .ok status code msg =>
      if status = 200 then
        if code = some 1 then ResultType.success
        else if code = some 0 ∧ markerHit msg = true then ResultType.already
        else ResultType.failed
      else ResultType.failed
  | .exc => ResultType.failed

/-- `vote_do` as run against a network oracle `net` assigning each
task id its raw response: the outcome is the classification of the
response alone. -/
def vote_do_outcome (net : Nat → VoteResponse) (taskId : Nat) : ResultType :=
  vote_do_classify (net taskId)

/-- `batch_vote.process_task`'s outer task boundary: the whole task
body runs inside `try/except`; an exception escaping to the handler
(modelled as `.error`) is converted to a `"failed"` result for that
task, otherwise the response is classified as usual. -/
def process_task_model (x : Except Unit VoteResponse) : ResultType :=
  match x with
  | .error _ => ResultType.failed
  | .ok r => vote_do_classify r

/-- State of the ordered reassembler of `batch_vote`: `emitted` is the
prefix of `output_order` already flushed (printed / counted /
recorded), `todo` the remaining suffix (`output_order` from
`next_output_idx` on), `buffer` the set of task ids currently in
`output_buffer`. -/
structure ReState where
  emitted : List Nat
  todo : List Nat
  buffer : Finset Nat
deriving DecidableEq

/-- `batch_vote.flush_output`: drain the longest prefix of the
remaining output order whose task ids are present in the buffer,
removing each drained id from the buffer.  Returns the drained prefix
and the remaining buffer. -/
def flush_output : List Nat → Finset Nat → List Nat × Finset Nat
  | [], buf => ([], buf)
  | k :: rest, buf =>
    if k ∈ buf then
      let p := flush_output rest (buf.erase k)
      (k :: p.1, p.2)
    else ([], buf)

/-- The critical section of `batch_vote.process_task` performed under
`output_lock`: insert this task's finished result into
`output_buffer`, then run `flush_output`. -/
def submit_result (st : ReState) (k : Nat) : ReState :=
  let p := flush_output st.todo (insert k st.buffer)
  ⟨st.emitted ++ p.1, st.todo.drop p.1.length, p.2⟩

/-- One full `batch_vote` run of the reassembler: `order` is
`output_order` (the submitted task ids in submission order);
`completions` is the order in which worker threads finish and enter
the `output_lock` critical section. -/
def run_reassembler (order completions : List Nat) : ReState :=
  completions.foldl submit_result ⟨[], order, ∅⟩

/-- Number of emitted tasks classified `success` (the
`success_count` accumulator of `flush_output`, incremented exactly
once per emitted task whose `result_type` is `"success"`). -/
def count_success (res : Nat → ResultType) (l : List Nat) : Nat :=
  l.countP (fun k => decide (res k = ResultType.success))

/-- The `already_count` accumulator of `flush_output`. -/
def count_already (res : Nat → ResultType) (l : List Nat) : Nat :=
  l.countP (fun k => decide (res k = ResultType.already))

/-- The `failed_count` accumulator of `flush_output` (the `else`
branch of its classification). -/
def count_failed (res : Nat → ResultType) (l : List Nat) : Nat :=
  l.countP (fun k => decide (res k = ResultType.failed))

/-- Result of one `get_user_posts` call as consumed by the crawl
loop: a post list plus the `has_more` flag, or a failure
(`{"success": False, ...}`). -/
inductive FetchResult where
  | ok (posts : List Nat) (hasMore : Bool)
  | err
deriving DecidableEq

/-- Raw state of one `get_user_posts` HTTP exchange: transport
status, parsed `code`, the nested post list and `per_page`, or a
raised request exception. -/
inductive PostsResp where
  | http (status : Nat) (code : Option Int) (posts : List Nat) (perPage : Nat)
  | exc
deriving DecidableEq

/-- `get_user_posts`: status 200 and `code == 1` yield the post list
with `has_more = len(posts) >= per_page`; any other status, an
unrecognized `code`, or an exception yields the failure result. -/
def get_user_posts_model : PostsResp → FetchResult
  | .http status code posts perPage =>
      if status = 200 then
        if code = some 1 then FetchResult.ok posts (decide (perPage ≤ posts.length))
        else FetchResult.err
      else FetchResult.err
  | .exc => FetchResult.err

/-- Why the crawl loop of `crawl_user_posts_gui` terminated:
a page fetch failed, a page came back empty, `has_more` was false, or
`max_pages` was exhausted. -/
inductive StopReason where
  | pageFailed
  | emptyPage
  | noMore
  | maxPagesReached
deriving DecidableEq

/-- Final state of a `crawl_user_posts_gui` run: collected posts,
`actual_pages_crawled`, and the reason the `while` loop stopped. -/
structure CrawlResult where
  posts : List Nat
  pagesCrawled : Nat
  reason : StopReason
deriving DecidableEq

/-- The `while page <= max_pages` loop of `crawl_user_posts_gui`,
fuelled: fetch the page; on failure break (before counting the
page); count the page; on an empty post list break; otherwise
accumulate the posts and continue while `has_more` holds. -/
def crawl_go (fetch : Nat → FetchResult) (maxPages : Nat) :
    Nat → Nat → List Nat → Nat → CrawlResult
  | 0, _, acc, n => ⟨acc, n, StopReason.maxPagesReached⟩
  | fuel + 1, page, acc, n =>
    if maxPages < page then ⟨acc, n, StopReason.maxPagesReached⟩
    else
      match fetch page with
      | FetchResult.err => ⟨acc, n, StopReason.pageFailed⟩
      | FetchResult.ok posts hasMore =>
        if posts = [] then ⟨acc, n + 1, StopReason.emptyPage⟩
        else if hasMore then
          crawl_go fetch maxPages fuel (page + 1) (acc ++ posts) (n + 1)
        else ⟨acc ++ posts, n + 1, StopReason.noMore⟩

/-- A full `crawl_user_posts_gui` run starting at page 1. -/
def crawl_user_posts_gui_model (fetch : Nat → FetchResult) (maxPages : Nat) :
    CrawlResult :=
  crawl_go fetch maxPages (maxPages + 1) 1 [] 0

/-- Progress of one thread through
`UsernamePostSearcher.get_user_full_info_cached` for a fixed key:
about to check the cache dict, past a cache miss and about to run the
underlying fetch (`get_complete_user_info`), or returned with a
value. -/
inductive TPhase where
  | start
  | willFetch
  | done (r : Option Nat)
deriving DecidableEq

/-- Shared state of the dedup cache experiment for one key: the
`user_cache` entry for that key, the number of underlying fetches
executed so far, and each thread's progress. -/
structure CacheSys where
  cache : Option Nat
  fetchCount : Nat
  threads : List TPhase
deriving DecidableEq

/-- One atomic step of a thread inside `get_user_full_info_cached`:
from `start`, read the cache dict — on a hit return the cached value,
on a miss proceed to the fetch; from `willFetch`, execute the
underlying fetch (counted), store the result in the cache if it is
non-`None`, and return it.  The check and the fetch are separate
steps because no lock guards the check-then-fetch-then-store
sequence. -/
def thread_step (fetch : Option Nat) (cache : Option Nat) (cnt : Nat) :
    TPhase → TPhase × Option Nat × Nat
  | TPhase.start =>
    match cache with
    | some v => (TPhase.done (some v), cache, cnt)
    | none => (TPhase.willFetch, cache, cnt)
  | TPhase.willFetch =>
    match fetch with
    | some v => (TPhase.done (some v), some v, cnt + 1)
    | none => (TPhase.done none, cache, cnt + 1)
  | TPhase.done r => (TPhase.done r, cache, cnt)

/-- Run one step of thread `i` against the shared cache state. -/
def sys_step (fetch : Option Nat) (s : CacheSys) (i : Nat) : CacheSys :=
  match s.threads.get? i with
  | none => s
  | some ph =>
    let r := thread_step fetch s.cache s.fetchCount ph
    ⟨r.2.1, r.2.2, s.threads.set i r.1⟩

/-- Run a schedule (list of thread indices, each entry one atomic
step of that thread) against the shared cache state. -/
def run_sched (fetch : Option Nat) (s : CacheSys) (sched : List Nat) : CacheSys :=
  sched.foldl (sys_step fetch) s

/-- Initial dedup-cache state: key uncached, no fetches, `c` threads
all about to call `get_user_full_info_cached`. -/
def init_cache_sys (c : Nat) : CacheSys :=
  ⟨none, 0, List.replicate c TPhase.start⟩

/-- The thread-count clamp of `batch_vote`:
`max(10, min(500, threads))`. -/
def clamp_threads (t : Int) : Int := max 10 (min 500 t)

/-- The bound normalization shared by `batch_vote` and
`MainScreen._do_batch_vote`: `if start > end: start, end = end, start`. -/
def swapBounds (s e : Int) : Int × Int := if s > e then (e, s) else (s, e)

/-- Python's `list(range(a, b + 1))` over integers. -/
def taskRange (a b : Int) : List Int :=
  (List.range (b + 1 - a).toNat).map (fun (i : Nat) => a + (i : Int))

/-- The task-id list built by `batch_vote` (and, equivalently, by
`MainScreen._do_batch_vote` before calling `batch_vote_gui`):
normalize the bounds, then take the inclusive integer range. -/
def batch_vote_task_ids (s e : Int) : List Int :=
  taskRange (swapBounds s e).1 (swapBounds s e).2

/-- Observable configuration outcome of a `batch_vote_gui` run:
whether `ThreadPoolExecutor(max_workers=threads)` raised before any
submission (`max_workers <= 0` raises `ValueError` at construction),
and how many units of work were submitted and executed. -/
structure GuiRun where
  failedFast : Bool
  executed : Nat
deriving DecidableEq

/-- `batch_vote_gui(start_id, end_id, threads)` at the configuration
level: a non-positive thread count makes `ThreadPoolExecutor` raise
before any task is submitted; otherwise every id of
`list(range(start_id, end_id + 1))` is submitted and processed. -/
def batch_vote_gui_model (startId endId threads : Int) : GuiRun :=
  if threads ≤ 0 then ⟨true, 0⟩
  else ⟨false, (taskRange startId endId).length⟩

/-- Invariant of the reassembler state relative to the submission
order and the set `done` of task ids whose workers have already run
their `output_lock` critical section. -/
def ReInv (order : List Nat) (done : Finset Nat) (st : ReState) : Prop :=
  st.emitted ++ st.todo = order ∧
  st.emitted.toFinset ∪ st.buffer = done ∧
  (∀ x ∈ st.buffer, x ∈ st.todo) ∧
  (∀ k l, st.todo = k :: l → k ∉ st.buffer)

theorem flush_output_spec (todo : List Nat) (buf : Finset Nat) :
    (flush_output todo buf).1 = todo.take (flush_output todo buf).1.length ∧
    (∀ x ∈ (flush_output todo buf).1, x ∈ buf) ∧
    (flush_output todo buf).2 = buf \ (flush_output todo buf).1.toFinset ∧
    (∀ k l, todo.drop (flush_output todo buf).1.length = k :: l →
      k ∉ (flush_output todo buf).2) := by
  induction todo generalizing buf with
  | nil =>
    refine ⟨rfl, by simp [flush_output], by simp [flush_output], ?_⟩
    intro k l h
    simp [flush_output] at h
  | cons k rest ih =>
    by_cases hk : k ∈ buf
    · obtain ⟨h1, h2, h3, h4⟩ := ih (buf.erase k)
      have hf : flush_output (k :: rest) buf =
          (k :: (flush_output rest (buf.erase k)).1,
            (flush_output rest (buf.erase k)).2) := by
        simp [flush_output, hk]
      rw [hf]
      refine ⟨?_, ?_, ?_, ?_⟩
      · simpa using congrArg (List.cons k) h1
      · intro x hx
        rcases List.mem_cons.mp hx with rfl | hx
        · exact hk
        · exact Finset.mem_of_mem_erase (h2 x hx)
      · rw [h3]
        ext y
        simp only [Finset.mem_sdiff, Finset.mem_erase, List.toFinset_cons,
          Finset.mem_insert, List.mem_toFinset]
        tauto
      · intro a l h
        simp only [List.length_cons, List.drop_succ_cons] at h
        exact h4 a l h
    · have hf : flush_output (k :: rest) buf = ([], buf) := by
        simp [flush_output, hk]
      rw [hf]
      refine ⟨rfl, by simp, by simp, ?_⟩
      intro a l h
      simp only [List.length_nil, List.drop_zero] at h
      cases h
      exact hk

theorem submit_result_def (st : ReState) (k : Nat) :
    submit_result st k =
      ⟨st.emitted ++ (flush_output st.todo (insert k st.buffer)).1,
        st.todo.drop (flush_output st.todo (insert k st.buffer)).1.length,
        (flush_output st.todo (insert k st.buffer)).2⟩ := rfl

theorem submit_preserves (order : List Nat) (done : Finset Nat) (st : ReState)
    (k : Nat) (hnd : order.Nodup) (hinv : ReInv order done st)
    (hk : k ∉ done) (hko : k ∈ order) :
    ReInv order (insert k done) (submit_result st k) := by
  rw [submit_result_def]
  obtain ⟨h1, h2, h3, h4⟩ := hinv
  obtain ⟨f1, f2, f3, f4⟩ := flush_output_spec st.todo (insert k st.buffer)
  have key : (flush_output st.todo (insert k st.buffer)).1 ++
      st.todo.drop (flush_output st.todo (insert k st.buffer)).1.length =
      st.todo := by
    have h := List.take_append_drop
      (flush_output st.todo (insert k st.buffer)).1.length st.todo
    rw [← f1] at h
    exact h
  have hkt : k ∈ st.todo := by
    have hkem : k ∉ st.emitted := by
      intro hc
      exact hk (h2 ▸ Finset.mem_union_left _ (List.mem_toFinset.mpr hc))
    have : k ∈ st.emitted ++ st.todo := h1 ▸ hko
    rcases List.mem_append.mp this with hc | hc
    · exact absurd hc hkem
    · exact hc
  refine ⟨?_, ?_, ?_, ?_⟩
  · show st.emitted ++ (flush_output st.todo (insert k st.buffer)).1 ++
      st.todo.drop (flush_output st.todo (insert k st.buffer)).1.length = order
    rw [List.append_assoc, key, h1]
  · show (st.emitted ++ (flush_output st.todo (insert k st.buffer)).1).toFinset ∪
      (flush_output st.todo (insert k st.buffer)).2 = insert k done
    rw [List.toFinset_append, f3, Finset.union_assoc]
    have hsub : (flush_output st.todo (insert k st.buffer)).1.toFinset ⊆
        insert k st.buffer := by
      intro x hx
      exact f2 x (List.mem_toFinset.mp hx)
    rw [Finset.union_sdiff_of_subset hsub, Finset.union_insert, h2]
  · show ∀ x ∈ (flush_output st.todo (insert k st.buffer)).2,
      x ∈ st.todo.drop (flush_output st.todo (insert k st.buffer)).1.length
    intro x hx
    rw [f3, Finset.mem_sdiff] at hx
    obtain ⟨hx1, hx2⟩ := hx
    have hxt : x ∈ st.todo := by
      rcases Finset.mem_insert.mp hx1 with rfl | hx1
      · exact hkt
      · exact h3 x hx1
    have := key ▸ hxt
    rcases List.mem_append.mp this with hc | hc
    · exact absurd (List.mem_toFinset.mpr hc) hx2
    · exact hc
  · show ∀ a l,
      st.todo.drop (flush_output st.todo (insert k st.buffer)).1.length = a :: l →
      a ∉ (flush_output st.todo (insert k st.buffer)).2
    exact f4

theorem fold_preserves (order : List Nat) (hnd : order.Nodup) :
    ∀ (cs : List Nat) (st : ReState) (done : Finset Nat),
      ReInv order done st → cs.Nodup → (∀ k ∈ cs, k ∈ order) →
      (∀ k ∈ cs, k ∉ done) →
      ReInv order (done ∪ cs.toFinset) (cs.foldl submit_result st) := by
  intro cs
  induction cs with
  | nil =>
    intro st done hinv _ _ _
    simpa using hinv
  | cons k cs ih =>
    intro st done hinv hndc hmem hnew
    have hknd : k ∉ cs := (List.nodup_cons.mp hndc).1
    have hstep : ReInv order (insert k done) (submit_result st k) :=
      submit_preserves order done st k hnd hinv (hnew k (by simp))
        (hmem k (by simp))
    have hres := ih (submit_result st k) (insert k done) hstep
      (List.nodup_cons.mp hndc).2
      (fun j hj => hmem j (List.mem_cons_of_mem _ hj))
      (fun j hj => by
        rw [Finset.mem_insert]
        push_neg
        exact ⟨fun hc => hknd (hc ▸ hj), hnew j (List.mem_cons_of_mem _ hj)⟩)
    have hset : insert k done ∪ cs.toFinset = done ∪ (k :: cs).toFinset := by
      rw [List.toFinset_cons, Finset.union_insert, Finset.insert_union]
    rw [List.foldl_cons]
    rw [← hset]
    exact hres

theorem reassembler_complete (order completions : List Nat)
    (hnd : order.Nodup) (hperm : completions.Perm order) :
    (run_reassembler order completions).emitted = order ∧
    (run_reassembler order completions).todo = [] ∧
    (run_reassembler order completions).buffer = ∅ := by
  have hinit : ReInv order ∅ ⟨[], order, ∅⟩ := by
    refine ⟨by simp, by simp, by simp, ?_⟩
    intro k l _
    simp
  have hfold := fold_preserves order hnd completions ⟨[], order, ∅⟩ ∅ hinit
    (hperm.nodup_iff.mpr hnd) (fun j hj => hperm.mem_iff.mp hj)
    (fun j _ => Finset.not_mem_empty j)
  have hfs : completions.toFinset = order.toFinset := by
    ext x
    simp [hperm.mem_iff]
  rw [Finset.empty_union, hfs] at hfold
  rw [show List.foldl submit_result ⟨[], order, ∅⟩ completions =
    run_reassembler order completions from rfl] at hfold
  set st := run_reassembler order completions with hst
  obtain ⟨h1, h2, h3, h4⟩ := hfold
  have htodo : st.todo = [] := by
    cases hcase : st.todo with
    | nil => rfl
    | cons k l =>
      exfalso
      have hkbuf : k ∉ st.buffer := h4 k l hcase
      have hkord : k ∈ order := by
        rw [← h1, hcase]
        exact List.mem_append.mpr (Or.inr (by simp))
      have hkdone : k ∈ st.emitted.toFinset ∪ st.buffer := by
        rw [h2]
        exact List.mem_toFinset.mpr hkord
      have hkem : k ∈ st.emitted := by
        rcases Finset.mem_union.mp hkdone with hc | hc
        · exact List.mem_toFinset.mp hc
        · exact absurd hc hkbuf
      have hsplit : order = st.emitted ++ k :: l := by rw [← h1, hcase]
      have hnd2 : (st.emitted ++ k :: l).Nodup := hsplit ▸ hnd
      rw [List.nodup_append] at hnd2
      exact hnd2.2.2 hkem (by simp)
  have hem : st.emitted = order := by
    have := h1
    rw [htodo, List.append_nil] at this
    exact this
  refine ⟨hem, htodo, ?_⟩
  rw [Finset.eq_empty_iff_forall_not_mem]
  intro x hx
  have := h3 x hx
  rw [htodo] at this
  simp at this

theorem counts_partition (res : Nat → ResultType) (l : List Nat) :
    count_success res l + count_already res l + count_failed res l = l.length := by
  induction l with
  | nil => simp [count_success, count_already, count_failed]
  | cons a t ih =>
    rcases h : res a with _ | _ | _ <;>
      simp only [count_success, count_already, count_failed,
        List.countP_cons, List.length_cons, h] at ih ⊢ <;>
      simp <;> omega

theorem taskRange_length (a b : Int) :
    (taskRange a b).length = (b + 1 - a).toNat := by
  unfold taskRange
  rw [List.length_map, List.length_range]

theorem mem_taskRange (a b x : Int) : x ∈ taskRange a b ↔ a ≤ x ∧ x ≤ b := by
  simp only [taskRange, List.mem_map, List.mem_range]
  constructor
  · rintro ⟨i, hi, rfl⟩
    omega
  · rintro ⟨h1, h2⟩
    exact ⟨(x - a).toNat, by omega, by omega⟩

theorem swapBounds_eq (s e : Int) : swapBounds s e = (min s e, max s e) := by
  unfold swapBounds
  split_ifs with h
  · rw [min_eq_right h.le, max_eq_left h.le]
  · rw [min_eq_left (not_lt.mp h), max_eq_right (not_lt.mp h)]

/-- C1: over any run of the batch-vote pipeline (submission order
`order`, worker completion order `completions` an arbitrary
permutation of it), the ordered reassembler — `output_buffer` drained
by `flush_output` under `output_lock` — emits exactly the submitted
task list in original submission order (hence each task exactly once,
strictly ascending by original index), with nothing left pending. -/
theorem reassembler_emits_each_task_once_in_order
    (order completions : List Nat) (hnd : order.Nodup)
    (hperm : completions.Perm order) :
    (run_reassembler order completions).emitted = order ∧
    (run_reassembler order completions).todo = [] ∧
    (run_reassembler order completions).buffer = ∅ :=
  reassembler_complete order completions hnd hperm

theorem reassembler_emits_each_task_once_in_order_witness :
    (run_reassembler [1, 2, 3, 4, 5] [5, 1, 3, 4, 2]).emitted = [1, 2, 3, 4, 5] ∧
    (run_reassembler [1, 2, 3, 4, 5] [5, 1, 3, 4, 2]).todo = [] ∧
    (run_reassembler [1, 2, 3, 4, 5] [5, 1, 3, 4, 2]).buffer = ∅ :=
  reassembler_emits_each_task_once_in_order [1, 2, 3, 4, 5] [5, 1, 3, 4, 2]
    (by decide) (by decide)

/-- C2: at completion of a batch-vote run over `N` submitted task
keys, the three counters incremented by `flush_output` (one exactly
once per emitted task, by its `result_type`) satisfy
`successCount + alreadyCount + failedCount = N`, for every completion
interleaving. -/
theorem counts_sum_to_submitted (res : Nat → ResultType)
    (order completions : List Nat) (hnd : order.Nodup)
    (hperm : completions.Perm order) :
    count_success res (run_reassembler order completions).emitted +
      count_already res (run_reassembler order completions).emitted +
      count_failed res (run_reassembler order completions).emitted =
      order.length := by
  rw [(reassembler_complete order completions hnd hperm).1]
  exact counts_partition res order

theorem counts_sum_to_submitted_witness :
    count_success (fun k => if k = 1 then ResultType.success
        else if k = 2 then ResultType.already else ResultType.failed)
      (run_reassembler [1, 2, 3] [3, 1, 2]).emitted +
    count_already (fun k => if k = 1 then ResultType.success
        else if k = 2 then ResultType.already else ResultType.failed)
      (run_reassembler [1, 2, 3] [3, 1, 2]).emitted +
    count_failed (fun k => if k = 1 then ResultType.success
        else if k = 2 then ResultType.already else ResultType.failed)
      (run_reassembler [1, 2, 3] [3, 1, 2]).emitted = 3 :=
  counts_sum_to_submitted _ [1, 2, 3] [3, 1, 2] (by decide) (by decide)

/-- C3: the voting-style classifier (`vote_do` composed with
`batch_vote.process_task`'s mapping) sends `code == 1` to success,
`code == 0` with one of the fixed already-performed markers
(`已投`, `重复`, `投过`) in the message to already-done, and every
other case — other codes, missing code, non-200 transport status,
request exceptions — to failed. -/
theorem vote_classifier_policy :
    (∀ (code : Option Int) (msg : List Char), code = some 1 →
        vote_do_classify (VoteResponse.ok 200 code msg) = ResultType.success) ∧
    (∀ (code : Option Int) (msg : List Char),
        code = some 0 → markerHit msg = true →
        vote_do_classify (VoteResponse.ok 200 code msg) = ResultType.already) ∧
    (∀ (status : Nat) (code : Option Int) (msg : List Char), status ≠ 200 →
        vote_do_classify (VoteResponse.ok status code msg) = ResultType.failed) ∧
    (∀ (code : Option Int) (msg : List Char), code ≠ some 1 →
        (code ≠ some 0 ∨ markerHit msg = false) →
        vote_do_classify (VoteResponse.ok 200 code msg) = ResultType.failed) ∧
    vote_do_classify VoteResponse.exc = ResultType.failed := by
  refine ⟨?_, ?_, ?_, ?_, rfl⟩
  · intro code msg h
    simp [vote_do_classify, h]
  · intro code msg h1 h2
    simp [vote_do_classify, h1, h2]
  · intro status code msg h
    simp [vote_do_classify, h]
  · intro code msg h1 h2
    rcases h2 with h2 | h2 <;> simp [vote_do_classify, h1, h2]

theorem vote_classifier_policy_witness :
    vote_do_classify (VoteResponse.ok 200 (some 1) []) = ResultType.success ∧
    vote_do_classify (VoteResponse.ok 200 (some 0) ['已', '投', '过', '了']) =
      ResultType.already ∧
    vote_do_classify (VoteResponse.ok 404 (some 1) []) = ResultType.failed ∧
    vote_do_classify (VoteResponse.ok 200 (some 2) []) = ResultType.failed :=
  ⟨vote_classifier_policy.1 (some 1) [] rfl,
   vote_classifier_policy.2.1 (some 0) ['已', '投', '过', '了'] rfl (by decide),
   vote_classifier_policy.2.2.1 404 (some 1) [] (by decide),
   vote_classifier_policy.2.2.2.1 (some 2) [] (by decide) (Or.inl (by decide))⟩

/-- C4: `batch_vote.process_task` wraps the whole task body in
`try/except`: an exception raised while processing one task is
converted into a failed result for that task only (first conjunct);
changing one task's behaviour to raise leaves every sibling task's
outcome untouched (second conjunct); and the run still reaches a
terminal state for all `N` submitted tasks, with every index emitted
and none pending, whatever the tasks did (third conjunct: the
reassembler result is independent of the per-task outcome values). -/
theorem task_exception_isolated :
    (∀ e : Unit, process_task_model (Except.error e) = ResultType.failed) ∧
    (∀ (f : Nat → Except Unit VoteResponse) (k : Nat) (e : Unit) (j : Nat),
        j ≠ k →
        process_task_model (Function.update f k (Except.error e) j) =
          process_task_model (f j)) ∧
    (∀ order completions : List Nat, order.Nodup → completions.Perm order →
        (run_reassembler order completions).emitted.length = order.length ∧
        (run_reassembler order completions).todo = []) := by
  refine ⟨fun _ => rfl, ?_, ?_⟩
  · intro f k e j hj
    rw [Function.update_noteq hj]
  · intro order completions hnd hperm
    obtain ⟨h1, h2, _⟩ := reassembler_complete order completions hnd hperm
    exact ⟨by rw [h1], h2⟩

theorem task_exception_isolated_witness :
    process_task_model (Except.error ()) = ResultType.failed ∧
    process_task_model
        (Function.update (fun _ => Except.ok VoteResponse.exc) 2
          (Except.error ()) 1) =
      process_task_model ((fun _ => Except.ok VoteResponse.exc) 1) ∧
    (run_reassembler [1, 2, 3] [2, 3, 1]).emitted.length = 3 :=
  ⟨task_exception_isolated.1 (),
   task_exception_isolated.2.1 (fun _ => Except.ok VoteResponse.exc) 2 () 1
     (by decide),
   (task_exception_isolated.2.2 [1, 2, 3] [2, 3, 1] (by decide) (by decide)).1⟩

/-- C7: the voting-style classifier is a total function of the raw
response alone: identical `(code, message)` input always yields the
identical outcome (first conjunct), and the outcome of a `vote_do`
pipeline run depends on nothing but the raw response the network
oracle returns for that task — two runs against different oracles or
task ids whose responses coincide classify identically (second
conjunct).  The classifier is exercisable on literal inputs with no
network dependency, as its witness shows. -/
theorem vote_classifier_deterministic :
    (∀ r r' : VoteResponse, r = r' →
        vote_do_classify r = vote_do_classify r') ∧
    (∀ (net net' : Nat → VoteResponse) (t t' : Nat), net t = net' t' →
        vote_do_outcome net t = vote_do_outcome net' t') := by
  refine ⟨fun r r' h => by rw [h], fun net net' t t' h => ?_⟩
  unfold vote_do_outcome
  rw [h]

theorem vote_classifier_deterministic_witness :
    vote_do_outcome (fun _ => VoteResponse.ok 200 (some 1) []) 0 =
      vote_do_outcome (fun _ => VoteResponse.ok 200 (some 1) []) 5 :=
  vote_classifier_deterministic.2 _ _ 0 5 rfl

/-- C8: for the same ordered batch of task keys and the same per-task
raw results, any two completion interleavings — in particular the
strictly sequential one forced by `W = 1` and any interleaving
reachable with `W = 50` — produce the same emission order and the
same final `(success, already, failed)` counts; the concurrency limit
only selects which completion permutation occurs. -/
theorem concurrency_invariance (res : Nat → ResultType)
    (order c1 c2 : List Nat) (hnd : order.Nodup)
    (h1 : c1.Perm order) (h2 : c2.Perm order) :
    (run_reassembler order c1).emitted = (run_reassembler order c2).emitted ∧
    count_success res (run_reassembler order c1).emitted =
      count_success res (run_reassembler order c2).emitted ∧
    count_already res (run_reassembler order c1).emitted =
      count_already res (run_reassembler order c2).emitted ∧
    count_failed res (run_reassembler order c1).emitted =
      count_failed res (run_reassembler order c2).emitted := by
  have e1 := (reassembler_complete order c1 hnd h1).1
  have e2 := (reassembler_complete order c2 hnd h2).1
  rw [e1, e2]
  exact ⟨rfl, rfl, rfl, rfl⟩

theorem concurrency_invariance_witness :
    (run_reassembler [1, 2, 3, 4] [1, 2, 3, 4]).emitted =
      (run_reassembler [1, 2, 3, 4] [4, 3, 2, 1]).emitted ∧
    count_success (fun _ => ResultType.success)
        (run_reassembler [1, 2, 3, 4] [1, 2, 3, 4]).emitted =
      count_success (fun _ => ResultType.success)
        (run_reassembler [1, 2, 3, 4] [4, 3, 2, 1]).emitted :=
  ⟨(concurrency_invariance (fun _ => ResultType.success) [1, 2, 3, 4]
      [1, 2, 3, 4] [4, 3, 2, 1] (by decide) (by decide) (by decide)).1,
   (concurrency_invariance (fun _ => ResultType.success) [1, 2, 3, 4]
      [1, 2, 3, 4] [4, 3, 2, 1] (by decide) (by decide) (by decide)).2.1⟩

/-- C9: the listing-style classifier of `get_user_posts` maps
non-200 status, unrecognized `code` and request exceptions to the
failure result; inside the crawl loop of `crawl_user_posts_gui` a
failed page stops the loop with the failure reason, the first empty
page stops the loop with the distinct `emptyPage` reason (still
counted as a crawled page, not a failure), and a non-empty page with
`has_more` continues the loop accumulating its posts. -/
theorem listing_classifier_and_empty_page_stop :
    (∀ (s : Nat) (c : Option Int) (posts : List Nat) (pp : Nat),
        s ≠ 200 ∨ c ≠ some 1 →
        get_user_posts_model (PostsResp.http s c posts pp) = FetchResult.err) ∧
    get_user_posts_model PostsResp.exc = FetchResult.err ∧
    (∀ (fetch : Nat → FetchResult) (maxPages fuel page : Nat)
        (acc : List Nat) (n : Nat), page ≤ maxPages →
        (fetch page = FetchResult.err →
          crawl_go fetch maxPages (fuel + 1) page acc n =
            ⟨acc, n, StopReason.pageFailed⟩) ∧
        (∀ hm, fetch page = FetchResult.ok [] hm →
          crawl_go fetch maxPages (fuel + 1) page acc n =
            ⟨acc, n + 1, StopReason.emptyPage⟩) ∧
        (∀ p ps, fetch page = FetchResult.ok (p :: ps) true →
          crawl_go fetch maxPages (fuel + 1) page acc n =
            crawl_go fetch maxPages fuel (page + 1) (acc ++ (p :: ps)) (n + 1))) ∧
    StopReason.emptyPage ≠ StopReason.pageFailed := by
  refine ⟨?_, rfl, ?_, by decide⟩
  · intro s c posts pp h
    rcases h with h | h
    · simp [get_user_posts_model, h]
    · by_cases hs : s = 200 <;> simp [get_user_posts_model, hs, h]
  · intro fetch maxPages fuel page acc n hpage
    have hlt : ¬ maxPages < page := not_lt.mpr hpage
    refine ⟨?_, ?_, ?_⟩
    · intro h
      simp [crawl_go, hlt, h]
    · intro hm h
      simp [crawl_go, hlt, h]
    · intro p ps h
      simp [crawl_go, hlt, h]

theorem listing_classifier_and_empty_page_stop_witness :
    get_user_posts_model (PostsResp.http 500 (some 1) [7] 20) =
      FetchResult.err ∧
    crawl_go (fun _ => FetchResult.ok [] true) 5 5 1 [] 0 =
      ⟨[], 1, StopReason.emptyPage⟩ :=
  ⟨listing_classifier_and_empty_page_stop.1 500 (some 1) [7] 20
     (Or.inl (by decide)),
   (listing_classifier_and_empty_page_stop.2.2.1
      (fun _ => FetchResult.ok [] true) 5 4 1 [] 0 (by decide)).2.1 true rfl⟩

/-- C5 counterexample: with two workers requesting the same uncached
key, the interleaving in which both run the cache-membership check of
`get_user_full_info_cached` before either fetches makes the
underlying fetch execute twice — the unguarded
check-then-fetch-then-store sequence is not single-flight. -/
theorem dedup_cache_double_fetch :
    (run_sched (some 7) (init_cache_sys 2) [0, 1, 0, 1]).fetchCount = 2 ∧
    ¬ (run_sched (some 7) (init_cache_sys 2) [0, 1, 0, 1]).fetchCount ≤ 1 ∧
    (run_sched (some 7) (init_cache_sys 2) [0, 1, 0, 1]).threads =
      [TPhase.done (some 7), TPhase.done (some 7)] := by decide

/-- C5 amended: `get_user_full_info_cached` returns the cached value
with no underlying fetch on a hit (first conjunct); a successful
fetch is stored, so a subsequent sequential caller of the same key
hits the cache and triggers no further fetch (second conjunct); a
failed fetch (`get_complete_user_info` returning `None`) is not
cached, so even purely sequential callers each re-fetch after a
failure (third conjunct); and because the check-then-fetch-then-store
sequence is unguarded, concurrent callers of the same uncached key
may each execute the underlying fetch — two racing callers perform
two fetches — though every caller still receives the fetched value
(fourth conjunct). -/
theorem dedup_cache_amended :
    (∀ (fetch : Option Nat) (v : Nat) (cnt : Nat),
        thread_step fetch (some v) cnt TPhase.start =
          (TPhase.done (some v), some v, cnt)) ∧
    (∀ v : Nat, run_sched (some v) (init_cache_sys 2) [0, 0, 1, 1] =
        ⟨some v, 1, [TPhase.done (some v), TPhase.done (some v)]⟩) ∧
    run_sched none (init_cache_sys 2) [0, 0, 1, 1] =
      ⟨none, 2, [TPhase.done none, TPhase.done none]⟩ ∧
    (∀ v : Nat,
        (run_sched (some v) (init_cache_sys 2) [0, 1, 0, 1]).fetchCount = 2 ∧
        (run_sched (some v) (init_cache_sys 2) [0, 1, 0, 1]).threads =
          [TPhase.done (some v), TPhase.done (some v)]) :=
  ⟨fun _ _ _ => rfl, fun _ => rfl, rfl, fun _ => ⟨rfl, rfl⟩⟩

/-- C6 counterexample: `batch_vote_gui` called directly with
`start_id = 5, end_id = 3` has an empty task-key source
(`list(range(5, 4)) == []`), yet the run does not fail fast: it
completes normally, executing zero units of work. -/
theorem batch_vote_gui_empty_source_completes :
    batch_vote_gui_model 5 3 50 = ⟨false, 0⟩ ∧
    (batch_vote_gui_model 5 3 50).failedFast = false ∧
    taskRange 5 3 = [] := by decide

/-- C6 amended: a pool size `W ≤ 0` does fail fast —
`ThreadPoolExecutor` raises at construction, before any task is
submitted, so no unit of work executes (first conjunct).  The
interactive `batch_vote` path cannot be configured invalidly at all:
its thread count is clamped into `[10, 500]` (second conjunct) and
its bound-swapped task list is never empty (third conjunct).  An
empty task-key source passed directly to `batch_vote_gui`, however,
completes as a no-op instead of failing fast (see the
counterexample), though it too executes no unit of work. -/
theorem invalid_config_fail_fast_amended :
    (∀ s e t : Int, t ≤ 0 → batch_vote_gui_model s e t = ⟨true, 0⟩) ∧
    (∀ t : Int, 10 ≤ clamp_threads t ∧ clamp_threads t ≤ 500) ∧
    (∀ s e : Int, 1 ≤ (batch_vote_task_ids s e).length) := by
  refine ⟨?_, ?_, ?_⟩
  · intro s e t h
    simp [batch_vote_gui_model, h]
  · intro t
    refine ⟨le_max_left _ _, max_le (by norm_num) (min_le_left _ _)⟩
  · intro s e
    have hids : batch_vote_task_ids s e = taskRange (min s e) (max s e) := by
      unfold batch_vote_task_ids
      rw [swapBounds_eq]
    rw [hids, taskRange_length]
    have h := min_le_max (a := s) (b := e)
    omega

theorem invalid_config_fail_fast_amended_witness :
    batch_vote_gui_model 1 100 0 = ⟨true, 0⟩ ∧
    (10 ≤ clamp_threads (-5) ∧ clamp_threads (-5) ≤ 500) ∧
    1 ≤ (batch_vote_task_ids 5 3).length :=
  ⟨invalid_config_fail_fast_amended.1 1 100 0 (by decide),
   invalid_config_fail_fast_amended.2.1 (-5),
   invalid_config_fail_fast_amended.2.2 5 3⟩

/-- C10: for every pair of integer bounds, the task-id list built by
batch voting (swap when `start > end`, then
`list(range(start, end + 1))`) is exactly the inclusive range from
`min(start, end)` to `max(start, end)`: it has
`max - min + 1 ≥ 1` elements and contains precisely the integers
between the two bounds. -/
theorem batch_vote_task_ids_exact (s e : Int) :
    batch_vote_task_ids s e = taskRange (min s e) (max s e) ∧
    (batch_vote_task_ids s e).length = (max s e - min s e + 1).toNat ∧
    1 ≤ (batch_vote_task_ids s e).length ∧
    (∀ x : Int, x ∈ batch_vote_task_ids s e ↔ min s e ≤ x ∧ x ≤ max s e) := by
  have hids : batch_vote_task_ids s e = taskRange (min s e) (max s e) := by
    unfold batch_vote_task_ids
    rw [swapBounds_eq]
  have hmm := min_le_max (a := s) (b := e)
  refine ⟨hids, ?_, ?_, ?_⟩
  · rw [hids, taskRange_length]
    omega
  · rw [hids, taskRange_length]
    omega
  · intro x
    rw [hids, mem_taskRange]
